import Mathlib

/-!
Shallow embedding of the safe-box credential store (src/src/lib.rs).

The Rust code keeps two pieces of state behind the `Safe` facade:
a SQLite table `main (user TEXT PRIMARY KEY, phc TEXT)` holding one
password-hash row per user, and an in-memory
`HashMap<String, (String, SystemTime)>` mapping session tokens to
(owner, issued-at).  We model the table as a list of rows (the spec and
the code both care about states where the uniqueness invariant is
violated, so a list rather than a finite map is the faithful choice) and
the token map as an association list whose insert replaces any entry
with the same key, matching `HashMap` semantics.

Randomness (salts, token bytes) and the clock (`SystemTime::now`) are
passed in as explicit parameters; fallible operations return
`Except Error`.
-/

namespace SafeBox

/-- Model of a PHC-encoded password hash string. The Rust code produces
such strings with `argon2::hash_encoded(pass, salt, cfg)` and checks them
with `argon2::verify_encoded`; we abstract the digest as the (password,
salt) pair it commits to, and keep a constructor for strings that are not
well-formed encodings, on which `verify_encoded` errors. -/
inductive Phc where
  | enc (pass : String) (salt : Nat)
  | malformed (raw : String)
deriving DecidableEq, Repr

/-- Model of the error enum in src/src/err.rs (`SafeBoxError`). -/
inductive Error where
  | SQL (msg : String)
  | Crypto
  | UserNotExist (user : String)
  | UserAlreadyExist (user : String)
  | BadPassword (username bad : String)
  | BadToken (tok : String)
  | InvalidData (msg : String)
deriving DecidableEq, Repr

/-- Model of `argon2::hash_encoded(pass.as_bytes(), &gen_salt(), &cfg)`:
with the default configuration this never fails, so it is total. -/
def hash_encoded (pass : String) (salt : Nat) : Phc := .enc pass salt

/-- Model of `argon2::verify_encoded(p, pass.as_bytes())`: a well-formed
encoding compares the password against the committed one; a malformed
encoding is a `Crypto` error. -/
def verify_encoded (h : Phc) (pass : String) : Except Error Bool :=
  match h with
  | .enc p _ => .ok (p == pass)
  | .malformed _ => .error .Crypto

/-- One row of the `main` table: `(user TEXT PRIMARY KEY, phc TEXT)`. -/
structure Row where
  user : String
  phc : Phc
deriving DecidableEq, Repr

/-- The token map `HashMap<String, (String, SystemTime)>`, as an
association list from token to (owner, issued-at). -/
abbrev TokenMap := List (String × String × Nat)

/-- The `Safe` facade state: the credential table and the token map. -/
structure Safe where
  db : List Row
  token : TokenMap
deriving DecidableEq, Repr

/-- Result of `SELECT ... FROM main WHERE user = ?`: the rows whose
user column equals the bound name. -/
def rowsFor (db : List Row) (user : String) : List Row :=
  db.filter (fun r => r.user == user)

/-- HashMap::insert — replaces any existing entry with the same key. -/
def tokenInsert (m : TokenMap) (k : String) (v : String × Nat) : TokenMap :=
  (k, v) :: m.filter (fun e => e.1 != k)

/-- HashMap::get on the token map. -/
def tokenGet (m : TokenMap) (k : String) : Option (String × Nat) :=
  (m.find? (fun e => e.1 == k)).map (fun e => e.2)

/-- HashMap::remove on the token map. -/
def tokenRemove (m : TokenMap) (k : String) : TokenMap :=
  m.filter (fun e => e.1 != k)

/-- Rust `SystemTime::duration_since`: errors (here `none`) when the
argument is later than `now`. -/
def duration_since (now t : Nat) : Option Nat :=
  if t ≤ now then some (now - t) else none

/-- Safe::issue_token (lib.rs:55-66): generates random bytes (modelled
as the `tok` parameter), inserts `(tok, (user, now))` into the map and
returns the token. It is total: it always succeeds. -/
def Safe.issue_token (s : Safe) (user tok : String) (now : Nat) : Safe × String :=
  ({ s with token := tokenInsert s.token tok (user, now) }, tok)

/-- Safe::invalidate_token (lib.rs:81-84): removes the entry if present. -/
def Safe.invalidate_token (s : Safe) (tok : String) : Safe :=
  { s with token := tokenRemove s.token tok }

/-- Safe::invalidate_user_token (lib.rs:87-90):
`retain(|_, (u, _)| u != user)`. -/
def Safe.invalidate_user_token (s : Safe) (user : String) : Safe :=
  { s with token := s.token.filter (fun e => e.2.1 != user) }

/-- Retention predicate of Safe::expire_token:
`SystemTime::now().duration_since(time).is_ok_and(|d| d < duration)`. -/
def tokenFresh (dur now : Nat) (e : String × String × Nat) : Bool :=
  match duration_since now e.2.2 with
  | some d => decide (d < dur)
  | none => false

/-- Safe::expire_token (lib.rs:93-103): retains the entries for which
`SystemTime::now().duration_since(time).is_ok_and(|d| d < duration)`,
and reports the number removed. -/
def Safe.expire_token (s : Safe) (dur now : Nat) : Safe × Nat :=
  let kept := s.token.filter (tokenFresh dur now)
  ({ s with token := kept }, s.token.length - kept.length)

/-- Safe::verify_token (lib.rs:151-154): `map.get(token).map(...)` under
a read lock; returns the owner of the token if present. -/
def Safe.verify_token (s : Safe) (tok : String) : Option String :=
  (tokenGet s.token tok).map (fun p => p.1)

/-- Safe::verify_token as a state transition, to make the absence of
mutation statable: the read-locked lookup leaves the map untouched. -/
def Safe.verify_token_op (s : Safe) (tok : String) : Safe × Option String :=
  (s, s.verify_token tok)

/-- Safe::user_cnt (lib.rs:106-112): `SELECT COUNT(*) FROM main`. -/
def Safe.user_cnt (s : Safe) : Except Error Nat :=
  .ok s.db.length

/-- Safe::create (lib.rs:115-128): `SELECT NULL FROM main WHERE user = ?`;
if any row comes back, fail with UserAlreadyExist; otherwise hash the
password with a fresh salt and `INSERT INTO main (user, phc)`. -/
def Safe.create (s : Safe) (user pass : String) (salt : Nat) : Except Error Safe :=
  let v := rowsFor s.db user
  if v.length > 0 then .error (.UserAlreadyExist user)
  else .ok { s with db := s.db ++ [⟨user, hash_encoded pass salt⟩] }

/-- Safe::verify (lib.rs:132-147): fetch all rows for the user; 0 rows is
UserNotExist, 2 or more is InvalidData, otherwise compare the password
against the stored hash and return the boolean result. -/
def Safe.verify (s : Safe) (user pass : String) : Except Error Bool :=
  match rowsFor s.db user with
  | [] => .error (.UserNotExist user)
  | [r] => verify_encoded r.phc pass
  | _ => .error (.InvalidData ("duplicate user " ++ user))

/-- Effect of `UPDATE main SET phc = ? WHERE user = ?` on one row:
rows matching the user get the new hash, others are untouched. -/
def replaceRow (user newPass : String) (salt : Nat) (r : Row) : Row :=
  if r.user == user then ⟨r.user, hash_encoded newPass salt⟩ else r

/-- Safe::update (lib.rs:157-166): first invalidate_user_token, then
`UPDATE main SET phc = ? WHERE user = ?` with a fresh salted hash; the
UPDATE rewrites every row matching the user and succeeds regardless of
how many rows (including zero) it touched. -/
def Safe.update (s : Safe) (user newPass : String) (salt : Nat) : Except Error Safe :=
  let s1 := s.invalidate_user_token user
  .ok { s1 with db := s1.db.map (replaceRow user newPass salt) }

/-- Safe::delete (lib.rs:169-174): `DELETE FROM main WHERE user = ?`,
unconditionally; succeeds whatever the number of matching rows. -/
def Safe.delete (s : Safe) (user : String) : Except Error Safe :=
  .ok { s with db := s.db.filter (fun r => r.user != user) }

/-! Helper lemmas about row selection. -/

theorem rowsFor_append (db1 db2 : List Row) (u : String) :
    rowsFor (db1 ++ db2) u = rowsFor db1 u ++ rowsFor db2 u := by
  simp [rowsFor, List.filter_append]

theorem rowsFor_single_self (u : String) (h : Phc) :
    rowsFor [⟨u, h⟩] u = [⟨u, h⟩] := by
  simp [rowsFor]

theorem rowsFor_map (db : List Row) (u : String) (f : Row → Row)
    (hf : ∀ r, (f r).user = r.user) :
    rowsFor (db.map f) u = (rowsFor db u).map f := by
  induction db with
  | nil => simp [rowsFor]
  | cons r t ih =>
    simp only [rowsFor, List.map_cons, List.filter_cons] at *
    rw [hf r]
    by_cases h : r.user == u <;> simp [h, ih]

/-! Helper lemmas about the token association map. -/

theorem tokenGet_insert (m : TokenMap) (k : String) (v : String × Nat) :
    tokenGet (tokenInsert m k v) k = some v := by
  simp [tokenGet, tokenInsert, List.find?_cons]

theorem tokenGet_remove (m : TokenMap) (k : String) :
    tokenGet (tokenRemove m k) k = none := by
  have hf : (tokenRemove m k).find? (fun e => e.1 == k) = none := by
    rw [List.find?_eq_none]
    intro x hx
    have hb := (List.mem_filter.mp hx).2
    simp only [bne_iff_ne, ne_eq] at hb
    simp [hb]
  simp [tokenGet, hf]

theorem tokenFresh_iff (dur now : Nat) (e : String × String × Nat) :
    tokenFresh dur now e = true ↔ e.2.2 ≤ now ∧ now - e.2.2 < dur := by
  by_cases h : e.2.2 ≤ now <;> simp [tokenFresh, duration_since, h]

/-! Helper lemmas characterising Safe.verify by row count. -/

theorem verify_userNotExist_iff (s : Safe) (u p : String) :
    s.verify u p = .error (.UserNotExist u) ↔ (rowsFor s.db u).length = 0 := by
  unfold Safe.verify
  rcases hr : rowsFor s.db u with _ | ⟨r, _ | ⟨r2, rest⟩⟩
  · simp
  · rcases hphc : r.phc with ⟨a, b⟩ | ⟨raw⟩ <;> simp [verify_encoded, hphc]
  · simp

theorem verify_invalidData_iff (s : Safe) (u p : String) :
    (∃ m, s.verify u p = .error (.InvalidData m)) ↔ 2 ≤ (rowsFor s.db u).length := by
  unfold Safe.verify
  rcases hr : rowsFor s.db u with _ | ⟨r, _ | ⟨r2, rest⟩⟩
  · simp
  · rcases hphc : r.phc with ⟨a, b⟩ | ⟨raw⟩ <;> simp [verify_encoded, hphc]
  · simp

theorem verify_single_row (s : Safe) (u p q : String) (salt : Nat)
    (h : rowsFor s.db u = [⟨u, Phc.enc q salt⟩]) :
    s.verify u p = .ok (q == p) := by
  unfold Safe.verify
  rw [h]
  simp [verify_encoded]

/-- C1: after create(u, p) succeeds, verify(u, p) returns Ok(true) and
verify(u, q) for any q different from p returns Ok(false); the
non-matching password is a normal boolean false, not an error. -/
theorem create_verify_roundtrip (s s1 : Safe) (u p : String) (salt : Nat)
    (h : s.create u p salt = .ok s1) :
    s1.verify u p = .ok true ∧ ∀ q, q ≠ p → s1.verify u q = .ok false := by
  unfold Safe.create at h
  by_cases hc : 0 < (rowsFor s.db u).length
  · simp [hc] at h
  · simp [hc] at h
    have hnil : rowsFor s.db u = [] := by
      cases hr : rowsFor s.db u with
      | nil => rfl
      | cons a t => rw [hr] at hc; simp at hc
    subst h
    have hrows : rowsFor (s.db ++ [⟨u, Phc.enc p salt⟩]) u
        = [⟨u, Phc.enc p salt⟩] := by
      rw [rowsFor_append, hnil, rowsFor_single_self, List.nil_append]
    constructor
    · simp only [Safe.verify, hash_encoded, hrows, verify_encoded, beq_self_eq_true]
    · intro q hq
      have hne : (p == q) = false := by
        simp only [beq_eq_false_iff_ne, ne_eq]
        exact fun hh => hq hh.symm
      simp only [Safe.verify, hash_encoded, hrows, verify_encoded, hne]

theorem create_verify_roundtrip_witness :
    ((⟨[⟨"a", .enc "p" 0⟩], []⟩ : Safe).verify "a" "p" = .ok true) ∧
    ((⟨[⟨"a", .enc "p" 0⟩], []⟩ : Safe).verify "a" "q" = .ok false) :=
  ⟨(create_verify_roundtrip ⟨[], []⟩ ⟨[⟨"a", .enc "p" 0⟩], []⟩ "a" "p" 0 rfl).1,
   (create_verify_roundtrip ⟨[], []⟩ ⟨[⟨"a", .enc "p" 0⟩], []⟩ "a" "p" 0 rfl).2
     "q" (by decide)⟩

/-- C5: once create(u, p1) has succeeded, a second create(u, p2) fails
with UserAlreadyExist, and the row written by the first call is still in
the table (the failed call returns before any insert). -/
theorem create_twice_fails (s s1 : Safe) (u p1 p2 : String) (salt1 salt2 : Nat)
    (h : s.create u p1 salt1 = .ok s1) :
    s1.create u p2 salt2 = .error (.UserAlreadyExist u) ∧
      (⟨u, hash_encoded p1 salt1⟩ : Row) ∈ s1.db := by
  unfold Safe.create at h
  by_cases hc : 0 < (rowsFor s.db u).length
  · simp [hc] at h
  · simp [hc] at h
    subst h
    have hrows : 0 < (rowsFor (s.db ++ [⟨u, hash_encoded p1 salt1⟩]) u).length := by
      rw [rowsFor_append, rowsFor_single_self]
      simp
    refine ⟨?_, by simp⟩
    unfold Safe.create
    simp only [gt_iff_lt]
    rw [if_pos hrows]

theorem create_twice_fails_witness :
    ((⟨[⟨"a", .enc "p1" 0⟩], []⟩ : Safe).create "a" "p2" 1
        = .error (.UserAlreadyExist "a")) ∧
      (⟨"a", .enc "p1" 0⟩ : Row) ∈ ([⟨"a", .enc "p1" 0⟩] : List Row) :=
  create_twice_fails ⟨[], []⟩ ⟨[⟨"a", .enc "p1" 0⟩], []⟩ "a" "p1" "p2" 0 1 rfl

/-- C10: delete(u) on a store with no row for u returns Ok and leaves
the state (in particular the credential table) unchanged. -/
theorem delete_missing_user_ok (s : Safe) (u : String)
    (h : rowsFor s.db u = []) :
    s.delete u = .ok s := by
  unfold Safe.delete
  have hall : ∀ r ∈ s.db, (r.user == u) = false := by
    intro r hr
    by_contra hb
    have hmem : r ∈ rowsFor s.db u := by
      rw [rowsFor, List.mem_filter]
      exact ⟨hr, by simpa using hb⟩
    rw [h] at hmem
    exact absurd hmem (List.not_mem_nil r)
  have : s.db.filter (fun r => r.user != u) = s.db := by
    rw [List.filter_eq_self]
    intro r hr
    simp [bne, hall r hr]
  rw [this]

theorem delete_missing_user_ok_witness :
    (⟨[⟨"a", .enc "p" 0⟩], []⟩ : Safe).delete "b"
      = .ok ⟨[⟨"a", .enc "p" 0⟩], []⟩ :=
  delete_missing_user_ok ⟨[⟨"a", .enc "p" 0⟩], []⟩ "b" (by decide)

/-- C2: verify(u, p) fails with UserNotExist exactly when zero rows
match u, fails with InvalidData exactly when two or more rows match u,
and with exactly one (well-formed) row it returns the boolean comparison
of p against the stored hash. -/
theorem verify_row_count_characterization (s : Safe) (u p : String) :
    (s.verify u p = .error (.UserNotExist u) ↔ (rowsFor s.db u).length = 0) ∧
    ((∃ m, s.verify u p = .error (.InvalidData m)) ↔ 2 ≤ (rowsFor s.db u).length) ∧
    (∀ q salt, rowsFor s.db u = [⟨u, Phc.enc q salt⟩] → s.verify u p = .ok (q == p)) :=
  ⟨verify_userNotExist_iff s u p, verify_invalidData_iff s u p,
    fun q salt h => verify_single_row s u p q salt h⟩

theorem verify_row_count_characterization_witness :
    (⟨[⟨"a", .enc "q" 0⟩], []⟩ : Safe).verify "a" "p" = .ok ("q" == "p") :=
  (verify_row_count_characterization ⟨[⟨"a", .enc "q" 0⟩], []⟩ "a" "p").2.2 "q" 0 rfl

/-- C3: after update(u, p2) on a store holding exactly one row for u with
the hash of the old password p1, verify(u, p2) returns Ok(true),
verify(u, p1) returns Ok(false), and every token previously held by u is
absent from verify_token. -/
theorem update_semantics (s s1 : Safe) (u p1 p2 : String) (salt1 salt2 : Nat)
    (hrow : rowsFor s.db u = [⟨u, Phc.enc p1 salt1⟩])
    (hne : p1 ≠ p2)
    (hkeys : (s.token.map Prod.fst).Nodup)
    (h : s.update u p2 salt2 = .ok s1) :
    s1.verify u p2 = .ok true ∧ s1.verify u p1 = .ok false ∧
    ∀ tok t, (tok, u, t) ∈ s.token → s1.verify_token tok = none := by
  unfold Safe.update Safe.invalidate_user_token at h
  simp only [Except.ok.injEq] at h
  subst h
  have hf : ∀ r : Row, (replaceRow u p2 salt2 r).user = r.user := by
    intro r
    unfold replaceRow
    by_cases hc : r.user == u <;> simp [hc]
  have hrows : rowsFor (s.db.map (replaceRow u p2 salt2)) u
      = [⟨u, Phc.enc p2 salt2⟩] := by
    rw [rowsFor_map _ _ _ hf, hrow]
    simp [replaceRow, hash_encoded]
  refine ⟨?_, ?_, ?_⟩
  · have hv := verify_single_row
      ⟨s.db.map (replaceRow u p2 salt2), s.token.filter (fun e => e.2.1 != u)⟩
      u p2 p2 salt2 hrows
    simpa using hv
  · have hv := verify_single_row
      ⟨s.db.map (replaceRow u p2 salt2), s.token.filter (fun e => e.2.1 != u)⟩
      u p1 p2 salt2 hrows
    rw [hv]
    have hb : (p2 == p1) = false := by
      simp only [beq_eq_false_iff_ne, ne_eq]
      exact fun hh => hne hh.symm
    rw [hb]
  · intro tok t hmem
    have hnone : (s.token.filter (fun e => e.2.1 != u)).find?
        (fun e => e.1 == tok) = none := by
      rw [List.find?_eq_none]
      intro x hx
      have hx1 := (List.mem_filter.mp hx).1
      have hx2 := (List.mem_filter.mp hx).2
      simp only [bne_iff_ne, ne_eq] at hx2
      intro hb
      have hxeq : x = (tok, u, t) :=
        List.inj_on_of_nodup_map hkeys hx1 hmem (by simpa using hb)
      exact hx2 (by rw [hxeq])
    simp [Safe.verify_token, tokenGet, hnone]

theorem update_semantics_witness :
    ((⟨[⟨"a", .enc "p2" 1⟩], [("t2", "b", 0)]⟩ : Safe).verify "a" "p2" = .ok true) ∧
    ((⟨[⟨"a", .enc "p2" 1⟩], [("t2", "b", 0)]⟩ : Safe).verify "a" "p1" = .ok false) ∧
    ((⟨[⟨"a", .enc "p2" 1⟩], [("t2", "b", 0)]⟩ : Safe).verify_token "t1" = none) :=
  ⟨(update_semantics ⟨[⟨"a", .enc "p1" 0⟩], [("t1", "a", 0), ("t2", "b", 0)]⟩
      ⟨[⟨"a", .enc "p2" 1⟩], [("t2", "b", 0)]⟩ "a" "p1" "p2" 0 1
      rfl (by decide) (by decide) rfl).1,
   (update_semantics ⟨[⟨"a", .enc "p1" 0⟩], [("t1", "a", 0), ("t2", "b", 0)]⟩
      ⟨[⟨"a", .enc "p2" 1⟩], [("t2", "b", 0)]⟩ "a" "p1" "p2" 0 1
      rfl (by decide) (by decide) rfl).2.1,
   (update_semantics ⟨[⟨"a", .enc "p1" 0⟩], [("t1", "a", 0), ("t2", "b", 0)]⟩
      ⟨[⟨"a", .enc "p2" 1⟩], [("t2", "b", 0)]⟩ "a" "p1" "p2" 0 1
      rfl (by decide) (by decide) rfl).2.2 "t1" 0 (by decide)⟩

/-- C4 counterexample: on a corrupted store holding two rows for user a,
update and delete both return Ok — neither performs the duplicate-row
InvalidData check the claim ascribes to them. -/
theorem update_delete_no_dup_check_cex :
    (2 ≤ (rowsFor [⟨"a", Phc.enc "x" 0⟩, ⟨"a", Phc.enc "y" 1⟩] "a").length) ∧
    ((⟨[⟨"a", .enc "x" 0⟩, ⟨"a", .enc "y" 1⟩], []⟩ : Safe).update "a" "z" 2
      = .ok ⟨[⟨"a", .enc "z" 2⟩, ⟨"a", .enc "z" 2⟩], []⟩) ∧
    ((⟨[⟨"a", .enc "x" 0⟩, ⟨"a", .enc "y" 1⟩], []⟩ : Safe).delete "a"
      = .ok ⟨[], []⟩) :=
  ⟨by decide, rfl, rfl⟩

/-- C4 amended: only verify performs the duplicate-row check, mapping
two or more rows to InvalidData; update and delete run their SQL
statement unconditionally and succeed whatever the row count. -/
theorem update_delete_always_ok (s : Safe) (u p : String) (salt : Nat) :
    (∃ s1, s.update u p salt = .ok s1) ∧ (∃ s1, s.delete u = .ok s1) ∧
    ((∃ m, s.verify u p = .error (.InvalidData m)) ↔ 2 ≤ (rowsFor s.db u).length) :=
  ⟨⟨_, rfl⟩, ⟨_, rfl⟩, verify_invalidData_iff s u p⟩

/-- C6 counterexample: a token whose age equals the duration exactly
(age 5, duration 5) does not exceed the duration, yet expire_token
removes it — the code keeps a token only while its age is strictly
below the duration. -/
theorem expire_token_boundary_cex :
    ¬ (5 - 0 > 5) ∧
      ((⟨[], [("t", "a", 0)]⟩ : Safe).expire_token 5 5).1.token = [] :=
  ⟨by decide, rfl⟩

/-- C6 amended: expire_token(d) removes exactly those tokens whose age
is d or more (a token aged exactly d is removed too, as is any token
whose timestamp lies in the future), leaving every strictly younger
token untouched; on an empty map it removes zero tokens and does not
error. -/
theorem expire_token_semantics (s : Safe) (dur now : Nat) :
    (∀ e, e ∈ (s.expire_token dur now).1.token ↔
        e ∈ s.token ∧ e.2.2 ≤ now ∧ now - e.2.2 < dur) ∧
    (s.expire_token dur now).2
        = s.token.length - ((s.expire_token dur now).1.token).length ∧
    ((⟨s.db, []⟩ : Safe).expire_token dur now).1.token = [] ∧
    ((⟨s.db, []⟩ : Safe).expire_token dur now).2 = 0 := by
  refine ⟨?_, rfl, rfl, rfl⟩
  intro e
  simp [Safe.expire_token, List.mem_filter, tokenFresh_iff, and_assoc]

/-- C7: issue_token(u) always succeeds (it is total), returns the token
it inserted, and an immediately following verify_token returns the user;
after invalidate_token of that token, verify_token returns none. -/
theorem issue_verify_invalidate_token (s : Safe) (u tok : String) (now : Nat) :
    (s.issue_token u tok now).2 = tok ∧
    ((s.issue_token u tok now).1).verify_token tok = some u ∧
    (((s.issue_token u tok now).1).invalidate_token tok).verify_token tok = none := by
  refine ⟨rfl, ?_, ?_⟩
  · simp [Safe.issue_token, Safe.verify_token, tokenGet_insert]
  · simp [Safe.issue_token, Safe.invalidate_token, Safe.verify_token, tokenGet_remove]

/-- C8: invalidate_user_token(u) removes from the token map exactly the
entries owned by u: an entry survives if and only if it was there before
and its owner differs from u. -/
theorem invalidate_user_token_frame (s : Safe) (u : String)
    (e : String × String × Nat) :
    e ∈ (s.invalidate_user_token u).token ↔ e ∈ s.token ∧ e.2.1 ≠ u := by
  simp [Safe.invalidate_user_token, List.mem_filter]

/-- C9: verify_token is a pure lookup: it leaves the state (in
particular the token map) unchanged, and it answers some u exactly when
an entry for the token with owner u is currently in the map, whatever
that entry's age. -/
theorem verify_token_pure_lookup (s : Safe) (tok : String)
    (hkeys : (s.token.map Prod.fst).Nodup) :
    (s.verify_token_op tok).1 = s ∧
    ∀ u, ((s.verify_token_op tok).2 = some u ↔ ∃ t, (tok, u, t) ∈ s.token) := by
  refine ⟨rfl, ?_⟩
  intro u
  constructor
  · intro h
    simp only [Safe.verify_token_op, Safe.verify_token, tokenGet] at h
    rcases hfind : s.token.find? (fun e => e.1 == tok) with _ | e
    · rw [hfind] at h
      simp at h
    · rw [hfind] at h
      simp only [Option.map_some, Option.map_map, Option.some.injEq] at h
      have hpe := List.find?_some hfind
      have hmem : e ∈ s.token := List.mem_of_find?_eq_some hfind
      refine ⟨e.2.2, ?_⟩
      have he : e = (tok, u, e.2.2) := by
        have h1 : e.1 = tok := by simpa using hpe
        have h2 : e.2.1 = u := by simpa using h
        exact Prod.ext h1 (Prod.ext h2 rfl)
      rw [← he]
      exact hmem
  · rintro ⟨t, hmem⟩
    simp only [Safe.verify_token_op, Safe.verify_token, tokenGet]
    rcases hfind : s.token.find? (fun e => e.1 == tok) with _ | e
    · exfalso
      have := List.find?_eq_none.mp hfind (tok, u, t) hmem
      simp at this
    · have hpe := List.find?_some hfind
      have hmemE : e ∈ s.token := List.mem_of_find?_eq_some hfind
      have he : e = (tok, u, t) :=
        List.inj_on_of_nodup_map hkeys hmemE hmem (by simpa using hpe)
      rw [hfind, he]
      rfl

theorem verify_token_pure_lookup_witness :
    ((⟨[], [("t", "a", 3)]⟩ : Safe).verify_token_op "t").1 = ⟨[], [("t", "a", 3)]⟩ ∧
    (((⟨[], [("t", "a", 3)]⟩ : Safe).verify_token_op "t").2 = some "a" ↔
      ∃ t, ("t", "a", t) ∈ ([("t", "a", 3)] : TokenMap)) :=
  ⟨(verify_token_pure_lookup ⟨[], [("t", "a", 3)]⟩ "t" (by decide)).1,
   (verify_token_pure_lookup ⟨[], [("t", "a", 3)]⟩ "t" (by decide)).2 "a"⟩

end SafeBox
